import Mathlib

/-!
Shallow embedding of the user-record CLI data-access layer (app/cli.py):
the User data model, the persisted database state, and the command set
(initialize, create_user, get_user, get_all_users, change_email,
delete_user, get_user_from_partial, get_first_n_users).

The storage backend (app/models.py, app/database.py) is not among the
sources; its behavior — the uniqueness constraints on username and email,
schema drop/recreate, and transactional commit/rollback — is modelled from
the specification, as noted on each such definition.

Printing is modelled by each command's result value: a returned record (or
list of records) stands for the record(s) printed, and the distinguished
constructors (notFound, conflict, noMatches, ...) stand for the
corresponding user-facing messages.
-/

/-- A persisted User row: the surrogate id assigned by storage on insert,
username, email, and password (stored as given). -/
structure User where
  id : Nat
  username : String
  email : String
  password : String
deriving DecidableEq

/-- The persisted database state: the User table rows in insertion
(implicit storage) order, together with the next surrogate id that
storage will assign. -/
structure DB where
  rows : List User
  nextId : Nat
deriving DecidableEq

/-- Modelled from the spec: "`username` and `email` must each be unique
across all records; violating either fails the creation with a
constraint-violation error" (the User model in app/models.py is not among
the sources). A pending insert violates the constraints exactly when some
persisted row already carries the username or the email. -/
def violatesUnique (rows : List User) (username email : String) : Bool :=
  rows.any (fun r => r.username == username || r.email == email)

/-- Result of the create_user command: the printed new record on success,
or the "Username or email already taken!" conflict message. -/
inductive CreateOut where
  | created (u : User)
  | conflict
deriving DecidableEq

/-- Embeds create_user (cli.py lines 71-90): build the new user, add and
commit; on IntegrityError roll back and print the conflict message,
otherwise print the new record. The commit's constraint check is the
spec-modelled violatesUnique. -/
def create_user (db : DB) (username email password : String) : CreateOut × DB :=
  let newuser : User := ⟨db.nextId, username, email, password⟩
  if violatesUnique db.rows username email then
    (CreateOut.conflict, db)
  else
    (CreateOut.created newuser, ⟨db.rows ++ [newuser], db.nextId + 1⟩)

/-- Embeds get_user (cli.py lines 25-37): first row whose username matches
exactly; some user stands for printing the record, none for the
"not found!" message. -/
def get_user (db : DB) (username : String) : Option User :=
  db.rows.find? (fun r => r.username == username)

/-- Embeds get_all_users (cli.py lines 39-50): all rows; the empty list
stands for the "No users found" message. -/
def get_all_users (db : DB) : List User :=
  db.rows

/-- Result of the change_email command: the updated record printed on
success, the "not found!" message, or an uncaught storage-level
IntegrityError that crashes the command. -/
inductive EmailOut where
  | notFound
  | updated (u : User)
  | integrityCrash
deriving DecidableEq

/-- The effect on the table of committing the email update: the first row
carrying the username has its email field set, every other row is left
as is. -/
def replaceFirstEmail : List User → String → String → List User
  | [], _, _ => []
  | r :: rs, username, new_email =>
    if r.username == username then { r with email := new_email } :: rs
    else r :: replaceFirstEmail rs username new_email

/-- Modelled from the spec: the commit of an email update hits the
storage-level uniqueness constraint exactly when a row other than the one
being updated (the first row carrying the username) already holds the new
email. -/
def othersHaveEmail : List User → String → String → Bool
  | [], _, _ => false
  | r :: rs, username, new_email =>
    if r.username == username then rs.any (fun x => x.email == new_email)
    else (r.email == new_email) || othersHaveEmail rs username new_email

/-- Embeds change_email (cli.py lines 53-69): exact-match lookup; if no
row is found print the not-found message and return; otherwise mutate the
email field and commit. The commit's constraint violation is not caught:
integrityCrash stands for the unhandled error (the failed commit persists
nothing, so the stored state is unchanged). -/
def change_email (db : DB) (username new_email : String) : EmailOut × DB :=
  match db.rows.find? (fun r => r.username == username) with
  | none => (EmailOut.notFound, db)
  | some r =>
    if othersHaveEmail db.rows username new_email then
      (EmailOut.integrityCrash, db)
    else
      (EmailOut.updated { r with email := new_email },
       ⟨replaceFirstEmail db.rows username new_email, db.nextId⟩)

/-- Result of the delete_user command: the deletion confirmation or the
"not found!" message. -/
inductive DeleteOut where
  | notFound
  | deleted
deriving DecidableEq

/-- The effect on the table of deleting the looked-up user: the first row
carrying the username is removed. -/
def removeFirstUser : List User → String → List User
  | [], _ => []
  | r :: rs, username =>
    if r.username == username then rs else r :: removeFirstUser rs username

/-- Embeds delete_user (cli.py lines 92-106): exact-match lookup; if no
row is found print the not-found message and return; otherwise delete the
row and commit. -/
def delete_user (db : DB) (username : String) : DeleteOut × DB :=
  match db.rows.find? (fun r => r.username == username) with
  | none => (DeleteOut.notFound, db)
  | some _ => (DeleteOut.deleted, ⟨removeFirstUser db.rows username, db.nextId⟩)

/-- Modelled from the spec: drop_all deletes all tables
(app/database.py is not among the sources); after the schema is recreated
the table is empty and surrogate ids restart from 1. -/
def drop_all (_ : DB) : DB :=
  ⟨[], 1⟩

/-- Embeds the initialization command (cli.py lines 11-23): drop all
tables, recreate the schema, then add and commit the seed user
User("bob", "bob@mail.com", "bobpass"). -/
def initDb (db : DB) : DB :=
  (create_user (drop_all db) "bob" "bob@mail.com" "bobpass").2

/-- The seed record produced by initialization: bob with the first
surrogate id. -/
def seedUser : User :=
  ⟨1, "bob", "bob@mail.com", "bobpass"⟩

/-- Helper for SQL LIKE: tries the matcher f on the string and on each of
its suffixes, as the '%' wildcard consumes zero or more characters. -/
def likeSuffixAny (f : List Char → Bool) : List Char → Bool
  | [] => f []
  | c :: cs => f (c :: cs) || likeSuffixAny f cs

/-- SQL LIKE pattern matching on character lists (pattern first): '%'
matches any sequence of characters, '_' matches exactly one character,
every other pattern character matches itself. -/
def likeMatch : List Char → List Char → Bool
  | [], s => s.isEmpty
  | p :: ps, s =>
    if p == '%' then likeSuffixAny (likeMatch ps) s
    else
      match s with
      | [] => false
      | c :: cs => (p == '_' || p == c) && likeMatch ps cs

/-- Lower-cases a character list, character by character. -/
def lowerL (l : List Char) : List Char :=
  l.map Char.toLower

/-- SQL ILIKE: case-insensitive LIKE, modelled by lower-casing both the
pattern and the string. -/
def ilike (s pat : String) : Bool :=
  likeMatch (lowerL pat.toList) (lowerL s.toList)

/-- The pattern the command builds from the query by the f-string
interpolation, a percent sign on either side. -/
def likePat (q : String) : String :=
  "%" ++ q ++ "%"

/-- The row filter of the partial-match command: the interpolated pattern
tested case-insensitively against the email or the username. -/
def matchesQuery (q : String) (r : User) : Bool :=
  ilike r.email (likePat q) || ilike r.username (likePat q)

/-- Embeds get_user_from_partial (cli.py lines 114-133): all rows whose
email or username matches ILIKE on the interpolated pattern; the empty
list stands for the "No matches" message. -/
def get_user_from_query (db : DB) (q : String) : List User :=
  db.rows.filter (matchesQuery q)

/-- Embeds get_first_n_users (cli.py lines 138-158): skip offset rows of
the table in storage order, return at most limit rows; the empty list
stands for the "No users found." message. -/
def get_first_n_users (db : DB) (limit offset : Nat) : List User :=
  (db.rows.drop offset).take limit

/-- Checks whether the first list is an initial segment of the second,
character by character. -/
def startsWithL : List Char → List Char → Bool
  | [], _ => true
  | _ :: _, [] => false
  | p :: ps, c :: cs => p == c && startsWithL ps cs

/-- Checks whether the second list occurs contiguously inside the first. -/
def hasSubL : List Char → List Char → Bool
  | [], p => startsWithL p []
  | c :: cs, p => startsWithL p (c :: cs) || hasSubL cs p

/-- Holds when a character list contains no SQL LIKE wildcard, i.e.
neither a percent sign nor an underscore. -/
def wildFreeL (l : List Char) : Bool :=
  l.all (fun c => !(c == '%') && !(c == '_'))

/-- Modelled from the spec: "case-insensitive substring match against
username OR email" — the query read as a literal (wildcard-less)
substring, checked against either field after lower-casing. -/
def specSubMatch (q : String) (r : User) : Bool :=
  hasSubL (lowerL r.username.toList) (lowerL q.toList) ||
  hasSubL (lowerL r.email.toList) (lowerL q.toList)

theorem likeSuffixAny_of_nil (f : List Char → Bool) (hf : f [] = true) :
    ∀ s, likeSuffixAny f s = true
  | [] => hf
  | _ :: cs => by
    simp [likeSuffixAny, likeSuffixAny_of_nil f hf cs]

theorem likeMatch_pct (s : List Char) : likeMatch ['%'] s = true := by
  have h : likeMatch ['%'] s = likeSuffixAny (likeMatch []) s := by
    simp [likeMatch]
  rw [h]
  exact likeSuffixAny_of_nil _ rfl s

theorem likeMatch_append_pct :
    ∀ (p s : List Char), wildFreeL p = true →
      likeMatch (p ++ ['%']) s = startsWithL p s
  | [], s, _ => by
    simp only [List.nil_append, likeMatch_pct, startsWithL]
  | a :: ps, s, hw => by
    have hw2 : wildFreeL ps = true := by
      simp only [wildFreeL, List.all_cons, Bool.and_eq_true] at hw
      exact hw.2
    have ha : (a == '%') = false ∧ (a == '_') = false := by
      simp only [wildFreeL, List.all_cons, Bool.and_eq_true, Bool.not_eq_true',
        beq_eq_false_iff_ne] at hw
      exact ⟨by simp [hw.1.1], by simp [hw.1.2]⟩
    cases s with
    | nil =>
      simp [likeMatch, startsWithL, ha.1]
    | cons c cs =>
      simp only [List.cons_append, likeMatch, ha.1, Bool.false_eq_true, if_false, ha.2,
        Bool.false_or, startsWithL, List.append_eq]
      rw [likeMatch_append_pct ps cs hw2]

theorem likeSuffixAny_hasSub (p : List Char) (hw : wildFreeL p = true) :
    ∀ s, likeSuffixAny (likeMatch (p ++ ['%'])) s = hasSubL s p
  | [] => by
    simp [likeSuffixAny, hasSubL, likeMatch_append_pct p [] hw]
  | c :: cs => by
    simp only [likeSuffixAny, hasSubL, likeMatch_append_pct p (c :: cs) hw]
    rw [likeSuffixAny_hasSub p hw cs]

theorem likeMatch_pct_wrap (p s : List Char) (hw : wildFreeL p = true) :
    likeMatch ('%' :: (p ++ ['%'])) s = hasSubL s p := by
  have h : likeMatch ('%' :: (p ++ ['%'])) s
      = likeSuffixAny (likeMatch (p ++ ['%'])) s := by
    simp [likeMatch]
  rw [h, likeSuffixAny_hasSub p hw s]

theorem ofNat_shift_ne (n : Nat) (hlo : 65 ≤ n) (hhi : n ≤ 90) :
    Char.ofNat (n + 32) ≠ '%' ∧ Char.ofNat (n + 32) ≠ '_' := by
  interval_cases n <;> exact ⟨by decide, by decide⟩

theorem toLower_wildcard (c : Char) (h1 : c ≠ '%') (h2 : c ≠ '_') :
    c.toLower ≠ '%' ∧ c.toLower ≠ '_' := by
  have hdef : c.toLower
      = if c.toNat ≥ 65 ∧ c.toNat ≤ 90 then Char.ofNat (c.toNat + 32) else c := rfl
  rw [hdef]
  by_cases hc : c.toNat ≥ 65 ∧ c.toNat ≤ 90
  · rw [if_pos hc]
    exact ofNat_shift_ne c.toNat hc.1 hc.2
  · rw [if_neg hc]
    exact ⟨h1, h2⟩

theorem wildFreeL_lowerL (l : List Char) (h : wildFreeL l = true) :
    wildFreeL (lowerL l) = true := by
  simp only [wildFreeL, lowerL, List.all_map, List.all_eq_true, Function.comp,
    Bool.and_eq_true, Bool.not_eq_true', beq_eq_false_iff_ne] at h ⊢
  intro c hc
  exact toLower_wildcard c (h c hc).1 (h c hc).2

theorem likePat_toList (q : String) :
    (likePat q).toList = '%' :: (q.toList ++ ['%']) := by
  simp [likePat, String.toList]

theorem lowerL_likePat (q : String) :
    lowerL ((likePat q).toList) = '%' :: (lowerL q.toList ++ ['%']) := by
  rw [likePat_toList]
  simp [lowerL]

theorem ilike_eq_hasSub (s q : String) (hw : wildFreeL q.toList = true) :
    ilike s (likePat q) = hasSubL (lowerL s.toList) (lowerL q.toList) := by
  rw [ilike, lowerL_likePat,
    likeMatch_pct_wrap (lowerL q.toList) (lowerL s.toList) (wildFreeL_lowerL q.toList hw)]

theorem matchesQuery_eq_specSubMatch (q : String) (hw : wildFreeL q.toList = true)
    (r : User) : matchesQuery q r = specSubMatch q r := by
  rw [matchesQuery, specSubMatch, ilike_eq_hasSub r.email q hw,
    ilike_eq_hasSub r.username q hw, Bool.or_comm]

theorem hasSubL_nil : ∀ s : List Char, hasSubL s [] = true
  | [] => rfl
  | _ :: _ => by simp [hasSubL, startsWithL]

/-- C1: for every (username, email, password) triple whose username and
email do not already occur in the database, create_user inserts and prints
a record carrying exactly that triple, and a following get_user with that
username returns the same record. -/
theorem claim1_create_then_get (db : DB) (u e p : String)
    (h : ∀ r ∈ db.rows, r.username ≠ u ∧ r.email ≠ e) :
    (create_user db u e p).1 = CreateOut.created ⟨db.nextId, u, e, p⟩ ∧
    get_user (create_user db u e p).2 u = some ⟨db.nextId, u, e, p⟩ := by
  have hv : violatesUnique db.rows u e = false := by
    simp only [violatesUnique, List.any_eq_false, Bool.or_eq_true, beq_iff_eq]
    intro r hr hor
    rcases hor with h1 | h1
    · exact (h r hr).1 h1
    · exact (h r hr).2 h1
  have hn : db.rows.find? (fun r => r.username == u) = none := by
    simp only [List.find?_eq_none, beq_iff_eq]
    exact fun r hr => (h r hr).1
  constructor
  · simp [create_user, hv]
  · simp [create_user, hv, get_user, List.find?_append, hn]

/-- Witness for C1 on the empty database with the triple
(alice, alice at mail, alicepass). -/
theorem claim1_witness :
    (create_user ⟨[], 1⟩ "alice" "alice@mail.com" "alicepass").1
      = CreateOut.created ⟨1, "alice", "alice@mail.com", "alicepass"⟩ ∧
    get_user (create_user ⟨[], 1⟩ "alice" "alice@mail.com" "alicepass").2 "alice"
      = some ⟨1, "alice", "alice@mail.com", "alicepass"⟩ :=
  claim1_create_then_get ⟨[], 1⟩ "alice" "alice@mail.com" "alicepass" (by simp)

/-- C2: when some persisted row already carries the username or the email,
create_user answers with the conflict message and leaves the database
state — in particular the row count — unchanged, returning normally. -/
theorem claim2_create_conflict (db : DB) (u e p : String)
    (h : ∃ r ∈ db.rows, r.username = u ∨ r.email = e) :
    create_user db u e p = (CreateOut.conflict, db) := by
  have hv : violatesUnique db.rows u e = true := by
    obtain ⟨r, hr, hcase⟩ := h
    simp only [violatesUnique, List.any_eq_true]
    refine ⟨r, hr, ?_⟩
    rcases hcase with h1 | h1 <;> simp [h1]
  simp [create_user, hv]

/-- Witness for C2: re-creating bob on the freshly initialized database
conflicts and changes nothing. -/
theorem claim2_witness :
    create_user ⟨[seedUser], 2⟩ "bob" "other@mail.com" "pw"
      = (CreateOut.conflict, ⟨[seedUser], 2⟩) :=
  claim2_create_conflict ⟨[seedUser], 2⟩ "bob" "other@mail.com" "pw"
    ⟨seedUser, by decide, Or.inl rfl⟩

/-- C7: deleting a username no persisted row carries answers with the
not-found message and leaves the database state unchanged. -/
theorem claim7_delete_missing (db : DB) (u : String)
    (h : ∀ r ∈ db.rows, r.username ≠ u) :
    delete_user db u = (DeleteOut.notFound, db) := by
  have hn : db.rows.find? (fun r => r.username == u) = none := by
    simp only [List.find?_eq_none, beq_iff_eq]
    exact h
  simp [delete_user, hn]

/-- Witness for C7: deleting the absent user eve from the seed database. -/
theorem claim7_witness :
    delete_user ⟨[seedUser], 2⟩ "eve" = (DeleteOut.notFound, ⟨[seedUser], 2⟩) :=
  claim7_delete_missing ⟨[seedUser], 2⟩ "eve" (by decide)

/-- C9: initialization from any starting state leaves the User table with
exactly one record, the seed user bob. -/
theorem claim9_init_seed (db : DB) :
    (initDb db).rows = [seedUser] ∧ (initDb db).rows.length = 1 :=
  ⟨rfl, rfl⟩

/-- C6: on a table of five users in storage order, limit 2 with offset 0
returns exactly the first two records, and limit 2 with offset 4 returns
exactly the fifth. -/
theorem claim6_pagination (db : DB) (u1 u2 u3 u4 u5 : User)
    (h : db.rows = [u1, u2, u3, u4, u5]) :
    get_first_n_users db 2 0 = [u1, u2] ∧ get_first_n_users db 2 4 = [u5] := by
  rw [get_first_n_users, get_first_n_users, h]
  exact ⟨rfl, rfl⟩

/-- Witness for C6 on five concrete seeded users. -/
theorem claim6_witness :
    get_first_n_users
        ⟨[⟨1, "u1", "e1", "p"⟩, ⟨2, "u2", "e2", "p"⟩, ⟨3, "u3", "e3", "p"⟩,
          ⟨4, "u4", "e4", "p"⟩, ⟨5, "u5", "e5", "p"⟩], 6⟩ 2 0
      = [⟨1, "u1", "e1", "p"⟩, ⟨2, "u2", "e2", "p"⟩] ∧
    get_first_n_users
        ⟨[⟨1, "u1", "e1", "p"⟩, ⟨2, "u2", "e2", "p"⟩, ⟨3, "u3", "e3", "p"⟩,
          ⟨4, "u4", "e4", "p"⟩, ⟨5, "u5", "e5", "p"⟩], 6⟩ 2 4
      = [⟨5, "u5", "e5", "p"⟩] :=
  claim6_pagination _ _ _ _ _ _ rfl

/-- C10: with the empty query the interpolated pattern is a double percent
sign, which ILIKE-matches every username and email, so on a non-empty
table the command prints every user and never the no-matches message. -/
theorem claim10_empty_query (db : DB) (h : db.rows ≠ []) :
    get_user_from_query db "" = db.rows ∧ get_user_from_query db "" ≠ [] := by
  have hall : ∀ r : User, matchesQuery "" r = true := by
    intro r
    rw [matchesQuery_eq_specSubMatch "" rfl r]
    simp only [specSubMatch]
    have he : lowerL "".toList = [] := rfl
    rw [he, hasSubL_nil, hasSubL_nil, Bool.or_self]
  have heq : get_user_from_query db "" = db.rows := by
    rw [get_user_from_query, List.filter_eq_self]
    exact fun a _ => hall a
  exact ⟨heq, heq ▸ h⟩

/-- Witness for C10 on the seed database. -/
theorem claim10_witness :
    get_user_from_query ⟨[seedUser], 2⟩ "" = [seedUser] ∧
    get_user_from_query ⟨[seedUser], 2⟩ "" ≠ [] :=
  claim10_empty_query ⟨[seedUser], 2⟩ (by decide)

/-- C5 as stated is false: the query string is interpolated into a LIKE
pattern unescaped, so a query containing a wildcard matches rows it is not
a substring of. On the seed database the query whose characters are b,
underscore, b is printed as a match (the underscore matches the o of bob),
yet it is not a case-insensitive substring of bob or of the email. -/
theorem claim5_counterexample :
    get_user_from_query ⟨[seedUser], 2⟩ "b_b"
      ≠ List.filter (specSubMatch "b_b") [seedUser] := by
  decide

/-- C5 amended: for every query free of the LIKE wildcards (percent sign
and underscore), get_user_from_partial prints all and only the records of
which the query is a case-insensitive substring of the username or of the
email, and prints the no-matches message exactly when no record matches. -/
theorem claim5_wildcard_free_query (db : DB) (q : String)
    (hw : wildFreeL q.toList = true) :
    get_user_from_query db q = db.rows.filter (specSubMatch q) ∧
    (get_user_from_query db q = [] ↔ ∀ r ∈ db.rows, specSubMatch q r = false) := by
  have h1 : get_user_from_query db q = db.rows.filter (specSubMatch q) := by
    rw [get_user_from_query]
    exact List.filter_congr (fun r _ => matchesQuery_eq_specSubMatch q hw r)
  refine ⟨h1, ?_⟩
  rw [h1, List.filter_eq_nil_iff]
  simp only [Bool.not_eq_true]

/-- Witness for the amended C5: the query OB at-sign matches bob through
his email, case-insensitively. -/
theorem claim5_witness :
    get_user_from_query ⟨[seedUser], 2⟩ "OB@"
      = List.filter (specSubMatch "OB@") [seedUser] ∧
    (get_user_from_query ⟨[seedUser], 2⟩ "OB@" = [] ↔
      ∀ r ∈ [seedUser], specSubMatch "OB@" r = false) :=
  claim5_wildcard_free_query ⟨[seedUser], 2⟩ "OB@" (by decide)

/-- C8: when the username is persisted and the new email is already held
by another row, change_email hits the uncaught storage-level constraint
violation: the command crashes and the stored state is left unchanged, no
user-facing message or rollback handling intervening. -/
theorem claim8_change_email_crash (db : DB) (u e : String)
    (hex : ∃ r ∈ db.rows, r.username = u)
    (htaken : othersHaveEmail db.rows u e = true) :
    change_email db u e = (EmailOut.integrityCrash, db) := by
  have hs : (db.rows.find? (fun r => r.username == u)).isSome = true := by
    rw [List.find?_isSome]
    obtain ⟨r, hr, hu⟩ := hex
    exact ⟨r, hr, by simp [hu]⟩
  obtain ⟨r, hr⟩ := Option.isSome_iff_exists.mp hs
  rw [change_email, hr]
  simp [htaken]

/-- Witness for C8: pointing alice's email at bob's crashes. -/
theorem claim8_witness :
    change_email ⟨[seedUser, ⟨2, "alice", "alice@mail.com", "pw"⟩], 3⟩
        "alice" "bob@mail.com"
      = (EmailOut.integrityCrash,
         ⟨[seedUser, ⟨2, "alice", "alice@mail.com", "pw"⟩], 3⟩) :=
  claim8_change_email_crash ⟨[seedUser, ⟨2, "alice", "alice@mail.com", "pw"⟩], 3⟩
    "alice" "bob@mail.com"
    ⟨⟨2, "alice", "alice@mail.com", "pw"⟩, by decide, rfl⟩ (by decide)
theorem replaceFirstEmail_spec (u e : String) :
    ∀ (rows : List User) (r : User),
      rows.find? (fun x => x.username == u) = some r →
      ∃ i : Nat, rows[i]? = some r ∧
        (∀ j : Nat, j < i → ∀ x : User, rows[j]? = some x → x.username ≠ u) ∧
        (replaceFirstEmail rows u e).length = rows.length ∧
        (replaceFirstEmail rows u e)[i]? = some { r with email := e } ∧
        (∀ j : Nat, j ≠ i → (replaceFirstEmail rows u e)[j]? = rows[j]?) := by
  intro rows
  induction rows with
  | nil =>
    intro r hfind
    simp at hfind
  | cons a rs ih =>
    intro r hfind
    rw [List.find?_cons] at hfind
    by_cases ha : (a.username == u) = true
    · rw [ha] at hfind
      simp only [cond_true] at hfind
      have har : a = r := by injection hfind
      refine ⟨0, by simp [har], ?_, ?_, ?_, ?_⟩
      · intro j hj
        exact absurd hj (Nat.not_lt_zero j)
      · simp only [replaceFirstEmail, ha, if_true]
        simp
      · have hru : r.username = u := by
          rw [← har]
          simpa using ha
        simp only [replaceFirstEmail, ha, if_true, har]
        simp [hru]
      · intro j hj
        obtain ⟨k, rfl⟩ := Nat.exists_eq_succ_of_ne_zero hj
        simp only [replaceFirstEmail, ha, if_true]
        simp
    · have ha2 : (a.username == u) = false := by
        simpa using ha
      rw [ha2] at hfind
      simp only [cond_false] at hfind
      obtain ⟨i, h1, h2, h3, h4, h5⟩ := ih r hfind
      refine ⟨i + 1, by simpa using h1, ?_, ?_, ?_, ?_⟩
      · intro j hj x hx
        cases j with
        | zero =>
          have hax : a = x := by simpa using hx
          rw [← hax]
          simpa using ha
        | succ k =>
          exact h2 k (Nat.lt_of_succ_lt_succ hj) x (by simpa using hx)
      · simp only [replaceFirstEmail, ha2, Bool.false_eq_true, if_false]
        simpa using h3
      · simp only [replaceFirstEmail, ha2, Bool.false_eq_true, if_false]
        simpa using h4
      · intro j hj
        cases j with
        | zero =>
          simp only [replaceFirstEmail, ha2, Bool.false_eq_true, if_false]
          simp
        | succ k =>
          simp only [replaceFirstEmail, ha2, Bool.false_eq_true, if_false]
          have hk : k ≠ i := fun hki => hj (by rw [hki])
          simpa using h5 k hk

/-- C4: when the database holds a row with the given username and no other
row holds the new email, change_email reports the updated record and the
committed state differs from the old one in exactly one position — the
first row carrying the username, whose email field alone is set to the new
value — every other row and the id counter being left unchanged. -/
theorem claim4_change_email_frame (db : DB) (u e : String)
    (hex : ∃ r ∈ db.rows, r.username = u)
    (hfree : othersHaveEmail db.rows u e = false) :
    ∃ (i : Nat) (r : User), db.rows[i]? = some r ∧ r.username = u ∧
      (∀ j : Nat, j < i → ∀ x : User, db.rows[j]? = some x → x.username ≠ u) ∧
      (change_email db u e).1 = EmailOut.updated { r with email := e } ∧
      (change_email db u e).2.nextId = db.nextId ∧
      (change_email db u e).2.rows.length = db.rows.length ∧
      (change_email db u e).2.rows[i]? = some { r with email := e } ∧
      (∀ j : Nat, j ≠ i → (change_email db u e).2.rows[j]? = db.rows[j]?) := by
  have hs : (db.rows.find? (fun x => x.username == u)).isSome = true := by
    rw [List.find?_isSome]
    obtain ⟨r, hr, hu⟩ := hex
    exact ⟨r, hr, by simp [hu]⟩
  obtain ⟨r, hr⟩ := Option.isSome_iff_exists.mp hs
  have hru : r.username = u := by
    have := List.find?_some hr
    simpa using this
  obtain ⟨i, h1, h2, h3, h4, h5⟩ := replaceFirstEmail_spec u e db.rows r hr
  have hce : change_email db u e
      = (EmailOut.updated { r with email := e },
         ⟨replaceFirstEmail db.rows u e, db.nextId⟩) := by
    rw [change_email, hr]
    simp [hfree]
  refine ⟨i, r, h1, hru, h2, by rw [hce], by rw [hce], ?_, ?_, ?_⟩
  · rw [hce]
    exact h3
  · rw [hce]
    exact h4
  · intro j hj
    rw [hce]
    exact h5 j hj

/-- Witness for C4: updating alice's email next to bob touches only
alice's row. -/
theorem claim4_witness :
    ∃ (i : Nat) (r : User),
      (DB.mk [seedUser, ⟨2, "alice", "alice@mail.com", "pw"⟩] 3).rows[i]? = some r ∧
      r.username = "alice" ∧
      (∀ j : Nat, j < i → ∀ x : User,
        (DB.mk [seedUser, ⟨2, "alice", "alice@mail.com", "pw"⟩] 3).rows[j]? = some x →
        x.username ≠ "alice") ∧
      (change_email (DB.mk [seedUser, ⟨2, "alice", "alice@mail.com", "pw"⟩] 3)
          "alice" "new@mail.com").1 = EmailOut.updated { r with email := "new@mail.com" } ∧
      (change_email (DB.mk [seedUser, ⟨2, "alice", "alice@mail.com", "pw"⟩] 3)
          "alice" "new@mail.com").2.nextId
        = (DB.mk [seedUser, ⟨2, "alice", "alice@mail.com", "pw"⟩] 3).nextId ∧
      (change_email (DB.mk [seedUser, ⟨2, "alice", "alice@mail.com", "pw"⟩] 3)
          "alice" "new@mail.com").2.rows.length
        = (DB.mk [seedUser, ⟨2, "alice", "alice@mail.com", "pw"⟩] 3).rows.length ∧
      (change_email (DB.mk [seedUser, ⟨2, "alice", "alice@mail.com", "pw"⟩] 3)
          "alice" "new@mail.com").2.rows[i]? = some { r with email := "new@mail.com" } ∧
      (∀ j : Nat, j ≠ i →
        (change_email (DB.mk [seedUser, ⟨2, "alice", "alice@mail.com", "pw"⟩] 3)
            "alice" "new@mail.com").2.rows[j]?
          = (DB.mk [seedUser, ⟨2, "alice", "alice@mail.com", "pw"⟩] 3).rows[j]?) :=
  claim4_change_email_frame
    (DB.mk [seedUser, ⟨2, "alice", "alice@mail.com", "pw"⟩] 3) "alice" "new@mail.com"
    ⟨⟨2, "alice", "alice@mail.com", "pw"⟩, by decide, rfl⟩ (by decide)

/-- The spec's uniqueness invariant: usernames pairwise distinct and
emails pairwise distinct across all persisted records. -/
def UniqDB (db : DB) : Prop :=
  db.rows.Pairwise (fun a b => a.username ≠ b.username ∧ a.email ≠ b.email)

theorem uniq_create (db : DB) (u e p : String) (h : UniqDB db) :
    UniqDB (create_user db u e p).2 := by
  by_cases hv : violatesUnique db.rows u e = true
  · simp only [create_user, hv, if_true]
    exact h
  · have hv2 : violatesUnique db.rows u e = false := by
      simpa using hv
    have hfresh : ∀ r ∈ db.rows, r.username ≠ u ∧ r.email ≠ e := by
      simp only [violatesUnique, List.any_eq_false, Bool.or_eq_true, beq_iff_eq] at hv2
      intro r hr
      exact ⟨fun hh => hv2 r hr (Or.inl hh), fun hh => hv2 r hr (Or.inr hh)⟩
    rw [UniqDB]
    simp only [create_user, hv2, Bool.false_eq_true, if_false]
    rw [List.pairwise_append]
    refine ⟨h, by simp, ?_⟩
    intro a ha b hb
    simp only [List.mem_singleton] at hb
    rw [hb]
    exact ⟨(hfresh a ha).1, (hfresh a ha).2⟩

theorem mem_replaceFirstEmail (u e : String) :
    ∀ (rows : List User) (b : User), b ∈ replaceFirstEmail rows u e →
      b ∈ rows ∨ ∃ x ∈ rows, b = { x with email := e }
  | [], b, hb => by simp [replaceFirstEmail] at hb
  | r :: rs, b, hb => by
    by_cases hr : (r.username == u) = true
    · simp only [replaceFirstEmail, hr, if_true, List.mem_cons] at hb
      rcases hb with hb | hb
      · exact Or.inr ⟨r, List.mem_cons_self r rs, hb⟩
      · exact Or.inl (List.mem_cons_of_mem r hb)
    · have hr2 : (r.username == u) = false := by
        simpa using hr
      simp only [replaceFirstEmail, hr2, Bool.false_eq_true, if_false,
        List.mem_cons] at hb
      rcases hb with hb | hb
      · exact Or.inl (by simp [hb])
      · rcases mem_replaceFirstEmail u e rs b hb with h1 | ⟨x, hx, hbx⟩
        · exact Or.inl (List.mem_cons_of_mem r h1)
        · exact Or.inr ⟨x, List.mem_cons_of_mem r hx, hbx⟩

theorem uniq_replaceFirstEmail (u e : String) :
    ∀ rows : List User, othersHaveEmail rows u e = false →
      rows.Pairwise (fun a b => a.username ≠ b.username ∧ a.email ≠ b.email) →
      (replaceFirstEmail rows u e).Pairwise
        (fun a b => a.username ≠ b.username ∧ a.email ≠ b.email)
  | [], _, _ => by simp [replaceFirstEmail]
  | r :: rs, hothers, hpair => by
    rw [List.pairwise_cons] at hpair
    obtain ⟨hhead, htail⟩ := hpair
    by_cases hr : (r.username == u) = true
    · have hany : rs.any (fun x => x.email == e) = false := by
        simpa [othersHaveEmail, hr] using hothers
      simp only [List.any_eq_false, beq_iff_eq] at hany
      simp only [replaceFirstEmail, hr, if_true]
      rw [List.pairwise_cons]
      refine ⟨?_, htail⟩
      intro b hb
      exact ⟨(hhead b hb).1, fun hh => hany b hb hh.symm⟩
    · have hr2 : (r.username == u) = false := by
        simpa using hr
      have hsplit : (r.email == e) = false ∧ othersHaveEmail rs u e = false := by
        have := hothers
        simp only [othersHaveEmail, hr2, Bool.false_eq_true, if_false,
          Bool.or_eq_false_iff] at this
        exact this
      simp only [replaceFirstEmail, hr2, Bool.false_eq_true, if_false]
      rw [List.pairwise_cons]
      refine ⟨?_, uniq_replaceFirstEmail u e rs hsplit.2 htail⟩
      intro b hb
      rcases mem_replaceFirstEmail u e rs b hb with h1 | ⟨x, hx, hbx⟩
      · exact hhead b h1
      · refine ⟨?_, ?_⟩
        · rw [hbx]
          exact (hhead x hx).1
        · rw [hbx]
          intro hh
          have : (r.email == e) = true := by simp [hh]
          rw [hsplit.1] at this
          cases this
  
theorem removeFirstUser_sublist (u : String) :
    ∀ rows : List User, (removeFirstUser rows u).Sublist rows
  | [] => by simp [removeFirstUser]
  | r :: rs => by
    by_cases hr : (r.username == u) = true
    · simp only [removeFirstUser, hr, if_true]
      exact List.sublist_cons_self r rs
    · have hr2 : (r.username == u) = false := by
        simpa using hr
      simp only [removeFirstUser, hr2, Bool.false_eq_true, if_false]
      exact List.Sublist.cons₂ r (removeFirstUser_sublist u rs)

theorem uniq_change (db : DB) (u e : String) (h : UniqDB db) :
    UniqDB (change_email db u e).2 := by
  rw [change_email]
  cases hf : db.rows.find? (fun r => r.username == u) with
  | none => exact h
  | some r =>
    by_cases ho : othersHaveEmail db.rows u e = true
    · simp only [ho, if_true]
      exact h
    · have ho2 : othersHaveEmail db.rows u e = false := by
        simpa using ho
      simp only [ho2, Bool.false_eq_true, if_false]
      exact uniq_replaceFirstEmail u e db.rows ho2 h

theorem uniq_delete (db : DB) (u : String) (h : UniqDB db) :
    UniqDB (delete_user db u).2 := by
  rw [delete_user]
  cases hf : db.rows.find? (fun r => r.username == u) with
  | none => exact h
  | some r =>
    exact List.Pairwise.sublist (removeFirstUser_sublist u db.rows) h

theorem uniq_initDb (db : DB) : UniqDB (initDb db) := by
  rw [UniqDB]
  exact List.pairwise_singleton _ _

/-- One invocation of a command of the command set, as a transition on the
persisted database state; the read-only commands (get_user, get_all_users,
get_user_from_partial, get_first_n_users) leave the state unchanged. -/
inductive Step : DB → DB → Prop where
  | doInit (db : DB) : Step db (initDb db)
  | doCreate (db : DB) (u e p : String) : Step db (create_user db u e p).2
  | doChangeEmail (db : DB) (u e : String) : Step db (change_email db u e).2
  | doDelete (db : DB) (u : String) : Step db (delete_user db u).2
  | doRead (db : DB) : Step db db

/-- Database states reachable by a sequence of commands after an
initialization. -/
inductive ReachableDB : DB → Prop where
  | start (db : DB) : ReachableDB (initDb db)
  | step (db db2 : DB) : ReachableDB db → Step db db2 → ReachableDB db2

theorem uniq_step (db db2 : DB) (h : UniqDB db) (hs : Step db db2) : UniqDB db2 := by
  cases hs with
  | doInit => exact uniq_initDb db
  | doCreate u e p => exact uniq_create db u e p h
  | doChangeEmail u e => exact uniq_change db u e h
  | doDelete u => exact uniq_delete db u h
  | doRead => exact h

theorem uniq_reachable (db : DB) (h : ReachableDB db) : UniqDB db := by
  induction h with
  | start db => exact uniq_initDb db
  | step db db2 hr hs ih => exact uniq_step db db2 ih hs

/-- C3: every reachable database state has pairwise-distinct usernames and
pairwise-distinct emails, every command of the command set preserves this
invariant, and any creation that would violate either uniqueness fails
with the constraint-violation outcome. -/
theorem claim3_uniqueness_invariant :
    (∀ db : DB, ReachableDB db → UniqDB db) ∧
    (∀ db db2 : DB, UniqDB db → Step db db2 → UniqDB db2) ∧
    (∀ (db : DB) (u e p : String),
      (∃ r ∈ db.rows, r.username = u ∨ r.email = e) →
      (create_user db u e p).1 = CreateOut.conflict) := by
  refine ⟨uniq_reachable, uniq_step, ?_⟩
  intro db u e p hex
  have hv : violatesUnique db.rows u e = true := by
    obtain ⟨r, hr, hcase⟩ := hex
    simp only [violatesUnique, List.any_eq_true]
    refine ⟨r, hr, ?_⟩
    rcases hcase with h1 | h1 <;> simp [h1]
  simp [create_user, hv]

/-- Witness for C3: the freshly initialized state is reachable and
satisfies the invariant, and re-creating bob there conflicts. -/
theorem claim3_witness :
    UniqDB (initDb ⟨[], 1⟩) ∧
    (create_user ⟨[seedUser], 2⟩ "bob" "x@mail.com" "pw").1 = CreateOut.conflict :=
  ⟨claim3_uniqueness_invariant.1 (initDb ⟨[], 1⟩) (ReachableDB.start ⟨[], 1⟩),
   claim3_uniqueness_invariant.2.2 ⟨[seedUser], 2⟩ "bob" "x@mail.com" "pw"
     ⟨seedUser, by decide, Or.inl rfl⟩⟩
